import Mathlib

/-!
Verification of the finance-track transaction list component
(`src/app/components/TransactionList.tsx`) and the categories API route
(`app/api/categories/route.ts`).

The embedding is shallow: the component's pure data transformations
(filtering, sorting, pagination, date-bucketing, summary totals and CSV
string building) are translated to executable Lean functions.  Calendar
dates are modelled at day granularity as civil `(year, month, day)`
triples; `parseISO` on the stored ISO date strings is modelled as the
identity on such triples, and `date-fns` day predicates (`isToday`,
`isYesterday`, `isSameWeek`, `isSameMonth`) are implemented over the
standard days-from-civil-date conversion.  JavaScript's stable
`Array.prototype.sort` with a total comparator is modelled by the
stable sort `jsSort` with the corresponding boolean order.  Transaction
amounts are modelled as integers.
-/

/-- A calendar date, as produced by `parseISO` on a stored `tx.date`
string, at day granularity. -/
structure CalDate where
  year : Int
  month : Nat
  day : Nat
  deriving DecidableEq

/-- Days since 1970-01-01 of a civil date (standard days-from-civil
algorithm); this is the day-granularity analogue of `Date.getTime`. -/
def daysFromCivil (d : CalDate) : Int :=
  let y : Int := if d.month ≤ 2 then d.year - 1 else d.year
  let era : Int := Int.fdiv y 400
  let yoe : Int := y - era * 400
  let mp : Int := Int.emod ((d.month : Int) + 9) 12
  let doy : Int := Int.fdiv (153 * mp + 2) 5 + (d.day : Int) - 1
  let doe : Int := yoe * 365 + Int.fdiv yoe 4 - Int.fdiv yoe 100 + doy
  era * 146097 + doe - 719468

/-- Day-granularity model of `Date.prototype.getTime` comparisons. -/
def getTime (d : CalDate) : Int := daysFromCivil d

/-- Day of week, `0` = Sunday (1970-01-01 was a Thursday). -/
def dayOfWeek (d : CalDate) : Int := Int.emod (daysFromCivil d + 4) 7

/-- Day number of the start of the week containing `d`, for a given
`weekStartsOn` (0 = Sunday, 1 = Monday), as in `date-fns`. -/
def startOfWeekDay (d : CalDate) (weekStartsOn : Int) : Int :=
  daysFromCivil d - Int.emod (dayOfWeek d - weekStartsOn) 7

/-- Model of `date-fns` `isToday` relative to the current date `now`. -/
def isToday (d now : CalDate) : Bool := daysFromCivil d == daysFromCivil now

/-- Model of `date-fns` `isYesterday` relative to `now`. -/
def isYesterday (d now : CalDate) : Bool := daysFromCivil d + 1 == daysFromCivil now

/-- Model of `date-fns` `isSameWeek` with the given `weekStartsOn`
(`0`, the default, in the date-range filter; `1` in the grouping). -/
def isSameWeek (d now : CalDate) (weekStartsOn : Int) : Bool :=
  startOfWeekDay d weekStartsOn == startOfWeekDay now weekStartsOn

/-- Model of `date-fns` `isSameMonth`. -/
def isSameMonth (d now : CalDate) : Bool :=
  d.year == now.year && d.month == now.month

/-- English month name, as produced by `date-fns` `format` with the
default locale (months are 1-based here). -/
def monthName (m : Nat) : String :=
  match m with
  | 1 => "January" | 2 => "February" | 3 => "March" | 4 => "April"
  | 5 => "May" | 6 => "June" | 7 => "July" | 8 => "August"
  | 9 => "September" | 10 => "October" | 11 => "November" | 12 => "December"
  | _ => "InvalidMonth"

/-- Model of `format(txDate, 'MMMM yyyy')`. -/
def formatMonthYear (d : CalDate) : String :=
  monthName d.month ++ " " ++ toString d.year

/-- Left-pad a number below 100 to two digits. -/
def pad2 (n : Nat) : String := if n < 10 then "0" ++ toString n else toString n

/-- Model of `format(parseISO(tx.date), 'yyyy-MM-dd')`. -/
def formatYMD (d : CalDate) : String :=
  toString d.year ++ "-" ++ pad2 d.month ++ "-" ++ pad2 d.day

/-- A transaction row as handled by `TransactionList.tsx`; `type` is the
string stored in the database (`'income'` or something else), and
`description` may be absent (`null`/`undefined`). -/
structure Transaction where
  id : String
  date : CalDate
  type : String
  category : String
  description : Option String
  amount : Int
  deriving DecidableEq

/-- The `DateRangeOption` union type of the component. -/
inductive DateRangeOption where
  | all
  | today
  | week
  | month
  | custom
  deriving DecidableEq

/-- The `SortOption` union type of the component. -/
inductive SortOption where
  | newest
  | oldest
  | highest
  | lowest
  deriving DecidableEq

/-- The consolidated filter state of the component (`filters` in
`useState`); the type filter is kept as its string value
(`'all' | 'income' | 'expense'`), matching the comparisons in the code. -/
structure Filters where
  type : String
  category : String
  dateRange : DateRangeOption
  sortOption : SortOption
  searchTerm : String
  deriving DecidableEq

/-- Whether `pat` occurs at the head of `hay` (character-level). -/
def subAt : List Char → List Char → Bool
  | [], _ => true
  | _ :: _, [] => false
  | c :: cs, d :: ds => c == d && subAt cs ds

/-- Whether `pat` occurs contiguously anywhere in `hay`. -/
def hasSub (pat : List Char) : List Char → Bool
  | [] => pat.isEmpty
  | c :: rest => subAt pat (c :: rest) || hasSub pat rest

/-- Model of JavaScript `s.includes(pat)`. -/
def strIncludes (s pat : String) : Bool := hasSub pat.data s.data

/-- The date-range branch of the filter predicate (lines 189-199 of
`TransactionList.tsx`): `'all'` skips the check; `'today'`, `'week'`,
`'month'` use the `date-fns` predicates (with the default
`weekStartsOn : 0` for `'week'`); `'custom'` matches no `switch` case,
so control falls through to `return true`. -/
def dateRangeOk (filters : Filters) (now : CalDate) (tx : Transaction) : Bool :=
  match filters.dateRange with
  | .all => true
  | .today => isToday tx.date now
  | .week => isSameWeek tx.date now 0
  | .month => isSameMonth tx.date now
  | .custom => true

/-- The filter callback of `processedTransactions` (lines 174-202):
type filter, then category filter, then search filter over lowercased
category/description, then the date-range filter. -/
def txMatches (filters : Filters) (now : CalDate) (tx : Transaction) : Bool :=
  if filters.type != "all" && tx.type != filters.type then false
  else if filters.category != "all" && tx.category != filters.category then false
  else if filters.searchTerm != "" then
    if !(strIncludes tx.category.toLower filters.searchTerm.toLower)
        && !(match tx.description with
             | some d => strIncludes d.toLower filters.searchTerm.toLower
             | none => false) then false
    else dateRangeOk filters now tx
  else dateRangeOk filters now tx

/-- Insert `a` into an already-sorted list, passing exactly the elements
strictly below it, so that `a` lands before every element tied with it:
the insertion step of a stable sort. -/
def jsInsert (le : α → α → Bool) (a : α) : List α → List α
  | [] => [a]
  | b :: bs => if le b a && !le a b then b :: jsInsert le a bs else a :: b :: bs

/-- Model of JavaScript `Array.prototype.sort` with a comparator whose
induced preorder `le` is total: ECMAScript requires the sort to be
stable, and the stable sort by a total preorder is unique, so this
stable insertion sort is observably the same function. -/
def jsSort (le : α → α → Bool) (l : List α) : List α := l.foldr (jsInsert le) []

/-- The boolean order corresponding to the comparator passed to
`sorted.sort` for each `SortOption` (lines 207-220): `newest` and
`oldest` compare `getTime` of the parsed dates, `highest` and `lowest`
compare amounts. -/
def sortLe (so : SortOption) (a b : Transaction) : Bool :=
  match so with
  | .newest => decide (getTime b.date ≤ getTime a.date)
  | .oldest => decide (getTime a.date ≤ getTime b.date)
  | .highest => decide (b.amount ≤ a.amount)
  | .lowest => decide (a.amount ≤ b.amount)

/-- The sort stage: JavaScript's stable `sort` with a total comparator,
modelled by the stable `jsSort`. -/
def sortTransactions (so : SortOption) (txs : List Transaction) : List Transaction :=
  jsSort (sortLe so) txs

/-- The `processedTransactions` memo (lines 167-223): early return on an
empty input, then filter, then sort. -/
def processedTransactions (transactions : List Transaction) (filters : Filters)
    (now : CalDate) : List Transaction :=
  if transactions.isEmpty then []
  else sortTransactions filters.sortOption (transactions.filter (txMatches filters now))

/-- A date bucket of the paginated view (`TransactionGroup`). -/
structure TransactionGroup where
  title : String
  date : CalDate
  transactions : List Transaction
  deriving DecidableEq

/-- The bucket title of a transaction date (lines 243-253): first
matching test wins, in the order today, yesterday, same week
(`weekStartsOn : 1`), same month, else `format(txDate, 'MMMM yyyy')`. -/
def groupTitle (now d : CalDate) : String :=
  if isToday d now then "วันนี้"
  else if isYesterday d now then "เมื่อวาน"
  else if isSameWeek d now 1 then "สัปดาห์นี้"
  else if isSameMonth d now then "เดือนนี้"
  else formatMonthYear d

/-- One step of the grouping `Map` (lines 255-260): append `tx` to the
existing group with this title, keeping the map's insertion order, or
append a fresh group (whose representative `date` is `tx`'s date) at
the end. -/
def insertGrouped (tx : Transaction) (title : String) :
    List TransactionGroup → List TransactionGroup
  | [] => [⟨title, tx.date, [tx]⟩]
  | g :: gs =>
    if g.title = title then ⟨g.title, g.date, g.transactions ++ [tx]⟩ :: gs
    else g :: insertGrouped tx title gs

/-- The grouping loop (`paginatedTxs.forEach`, lines 239-260). -/
def buildGroups (now : CalDate) (txs : List Transaction) : List TransactionGroup :=
  txs.foldl (fun gs tx => insertGrouped tx (groupTitle now tx.date) gs) []

/-- The boolean order of `groupArray.sort((a, b) => b.date.getTime() -
a.date.getTime())` (line 264): representative dates, newest first. -/
def groupLe (a b : TransactionGroup) : Bool :=
  decide (getTime b.date ≤ getTime a.date)

/-- The record returned by the `paginatedData` memo. -/
structure PaginatedData where
  groups : List TransactionGroup
  totalPages : Nat
  totalItems : Nat
  deriving DecidableEq

/-- `itemsPerPage` (line 126). -/
def itemsPerPage : Nat := 10

/-- The grouping stage applied to a page slice: build the insertion-order
groups, then sort them newest-first by representative date (lines
237-264). -/
def sortedGroups (now : CalDate) (txs : List Transaction) : List TransactionGroup :=
  jsSort groupLe (buildGroups now txs)

/-- The `paginatedData` memo (lines 226-271): empty-input early return,
then the 10-item page slice, grouping of that slice, and the
newest-first sort of the groups; `totalPages` is
`Math.ceil(length / itemsPerPage)`. -/
def paginatedData (processed : List Transaction) (currentPage : Nat)
    (now : CalDate) : PaginatedData :=
  if processed.isEmpty then ⟨[], 0, 0⟩
  else
    let startIndex := (currentPage - 1) * itemsPerPage
    let paginatedTxs := (processed.drop startIndex).take itemsPerPage
    ⟨sortedGroups now paginatedTxs,
      (processed.length + itemsPerPage - 1) / itemsPerPage,
      processed.length⟩

/-- The transactions of a group list, in rendering order (groups in
order, each group's transactions in order). -/
def flattenGroups (gs : List TransactionGroup) : List Transaction :=
  (gs.map (fun g => g.transactions)).flatten

/-- The record returned by the `summary` memo. -/
structure Summary where
  totalIncome : Int
  totalExpense : Int
  balance : Int
  deriving DecidableEq

/-- The `summary` memo (lines 274-288): a single pass accumulating
`'income'` amounts into `totalIncome` and every other amount into
`totalExpense`; `balance` is their difference. -/
def summary (txs : List Transaction) : Summary :=
  let p := txs.foldl
    (fun (p : Int × Int) tx =>
      if tx.type = "income" then (p.1 + tx.amount, p.2) else (p.1, p.2 + tx.amount))
    (0, 0)
  ⟨p.1, p.2, p.1 - p.2⟩

/-- Model of `s.replace(/"/g, '""')`: every double quote doubled. -/
def replaceDq : List Char → List Char
  | [] => []
  | c :: cs => if c = '"' then '"' :: '"' :: replaceDq cs else c :: replaceDq cs

/-- A CSV field wrapped in double quotes with embedded quotes doubled. -/
def escapeField (s : String) : String :=
  "\"" ++ String.mk (replaceDq s.data) ++ "\""

/-- One CSV data row (lines 312-320): `date,type,category,description,amount`
with category and description quoted/escaped, a missing description
emitted as `""`, and the type rendered in Thai. -/
def csvRow (tx : Transaction) : String :=
  formatYMD tx.date ++ "," ++
  (if tx.type = "income" then "รายรับ" else "รายจ่าย") ++ "," ++
  escapeField tx.category ++ "," ++
  escapeField ((tx.description).getD "") ++ "," ++
  toString tx.amount

/-- The fixed CSV header line (line 311), trailing newline included. -/
def csvHeader : String := "วันที่,ประเภท,หมวดหมู่,รายละเอียด,จำนวนเงิน\n"

/-- Observable outcome of `exportCSV`: either the error toast message,
or the CSV text handed to the `Blob`. -/
inductive ExportResult where
  | err (msg : String)
  | csv (content : String)
  deriving DecidableEq

/-- The `exportCSV` handler (lines 304-330): error toast on an empty
processed list, otherwise the header plus the rows of the whole
processed list joined by newlines. -/
def exportCSV (processed : List Transaction) : ExportResult :=
  if processed.length = 0 then .err "ไม่มีข้อมูลที่จะส่งออก"
  else .csv (csvHeader ++ String.intercalate "\n" (processed.map csvRow))

/-- The rows rendered on the current page of the list view: the sorted
groups of `paginatedData`, flattened in rendering order. -/
def visibleRows (transactions : List Transaction) (filters : Filters)
    (currentPage : Nat) (now : CalDate) : List Transaction :=
  flattenGroups
    (paginatedData (processedTransactions transactions filters now) currentPage now).groups

/-- A Supabase query as issued by the route: table, selection, ordering
column. -/
structure SupabaseQuery where
  table : String
  selection : String
  orderBy : String
  deriving DecidableEq

/-- An incoming HTTP request; the route's `GET` declares no parameter,
so none of these fields can influence it. -/
structure HttpRequest where
  headers : List (String × String)
  authToken : Option String
  body : String
  deriving DecidableEq

/-- The JSON body of a route response. -/
inductive ResponseBody where
  | rows (data : List String)
  | errorObj (error : String)
  deriving DecidableEq

/-- An HTTP response as produced by `NextResponse.json`. -/
structure RouteResponse where
  status : Nat
  body : ResponseBody
  deriving DecidableEq

/-- Outcome of the route's interaction with Supabase: client creation
throws, the awaited query throws, the query result carries an `error`,
or it succeeds with `data` (possibly `null`). -/
inductive DbOutcome where
  | clientError
  | queryThrow
  | queryError
  | ok (data : Option (List String))
  deriving DecidableEq

/-- The single query built by the route:
`from('categories').select('*').order('name')`. -/
def categoriesQuery : SupabaseQuery := ⟨"categories", "*", "name"⟩

/-- The categories route `GET` handler (`app/api/categories/route.ts`,
lines 5-19): create the client, issue the one query, return `data`
(or `[]` when `null`) as JSON; any thrown error or query `error` is
caught and mapped to a 500 with a fixed JSON error body.  The result
pairs the queries issued during the execution with the response. -/
def categoriesGET (_req : HttpRequest) (db : DbOutcome) :
    List SupabaseQuery × RouteResponse :=
  match db with
  | .clientError => ([], ⟨500, .errorObj "Failed to fetch categories"⟩)
  | .queryThrow => ([categoriesQuery], ⟨500, .errorObj "Failed to fetch categories"⟩)
  | .queryError => ([categoriesQuery], ⟨500, .errorObj "Failed to fetch categories"⟩)
  | .ok data => ([categoriesQuery], ⟨200, .rows (data.getD [])⟩)

/-- The spec's notion of "is a substring of", at character level. -/
def isSubstringOf (pat s : String) : Prop :=
  ∃ pre post, pre ++ pat.data ++ post = s.data

/-- The filter condition as the spec sentence states it — a conjunction
of independent predicates — amended in the last conjunct: the
`'custom'` date range, which the spec sentence does not mention, matches
no `switch` case in the code and therefore excludes nothing. -/
def filterSpec (filters : Filters) (now : CalDate) (tx : Transaction) : Prop :=
  (filters.type = "all" ∨ tx.type = filters.type) ∧
  (filters.category = "all" ∨ tx.category = filters.category) ∧
  (filters.searchTerm = "" ∨
    isSubstringOf filters.searchTerm.toLower tx.category.toLower ∨
    ∃ d, tx.description = some d ∧
      isSubstringOf filters.searchTerm.toLower d.toLower) ∧
  (filters.dateRange = DateRangeOption.all ∨
    (filters.dateRange = DateRangeOption.today ∧ isToday tx.date now = true) ∨
    (filters.dateRange = DateRangeOption.week ∧ isSameWeek tx.date now 0 = true) ∨
    (filters.dateRange = DateRangeOption.month ∧ isSameMonth tx.date now = true) ∨
    filters.dateRange = DateRangeOption.custom)

/-- The spec's description of CSV escaping: every embedded double quote
doubled, written independently of the code's `replace` recursion. -/
def quoteDoubled (s : String) : String :=
  String.mk (s.data.flatMap (fun c => if c = '"' then ['"', '"'] else [c]))

/-- Invariant of the grouping loop after the transactions `seen` have
been folded into the accumulator `gs`: titles are distinct, every seen
transaction's title has a group, each group holds exactly the seen
transactions with its title in input order, and each group's
representative date is its first transaction's date. -/
def GroupsOK (now : CalDate) (seen : List Transaction) (gs : List TransactionGroup) : Prop :=
  (gs.map (fun g => g.title)).Nodup ∧
  (∀ x ∈ seen, groupTitle now x.date ∈ gs.map (fun g => g.title)) ∧
  (∀ g ∈ gs, g.transactions = seen.filter (fun x => groupTitle now x.date == g.title)) ∧
  (∀ g ∈ gs, ∃ x, g.transactions.head? = some x ∧ g.date = x.date)

/-- A concrete current date used by the concrete instances below
(2025-03-08, the literal `currentDate` of the component). -/
def now0 : CalDate := ⟨2025, 3, 8⟩

/-- A concrete income transaction dated 2020-01-01. -/
def txA : Transaction := ⟨"1", ⟨2020, 1, 1⟩, "income", "a", none, 5⟩

/-- A concrete income transaction dated 2020-02-01. -/
def txB : Transaction := ⟨"2", ⟨2020, 2, 1⟩, "income", "a", none, 3⟩

/-- A concrete transaction dated 2020-05-05, outside every relative
date range of `now0`. -/
def txC : Transaction := ⟨"3", ⟨2020, 5, 5⟩, "income", "a", none, 7⟩

/-- A filter state differing from the defaults only in sorting
oldest-first. -/
def fsOldest : Filters := ⟨"all", "all", DateRangeOption.all, SortOption.oldest, ""⟩

/-- The default filter state of the component. -/
def fsDefault : Filters := ⟨"all", "all", DateRangeOption.all, SortOption.newest, ""⟩

/-- A filter state whose date range is the unhandled `'custom'` option. -/
def fsCustom : Filters := ⟨"all", "all", DateRangeOption.custom, SortOption.newest, ""⟩

/-- Eleven distinct transactions dated on `now0`, more than one page. -/
def txs11 : List Transaction :=
  (List.range 11).map (fun i => ⟨toString i, ⟨2025, 3, 8⟩, "income", "a", none, (i : Int)⟩)

/-- Inserting into a list yields a permutation of consing. -/
theorem jsInsert_perm (le : α → α → Bool) (a : α) :
    ∀ l : List α, (jsInsert le a l).Perm (a :: l)
  | [] => List.Perm.refl _
  | b :: bs => by
    simp only [jsInsert]
    split
    · exact ((jsInsert_perm le a bs).cons b).trans (List.Perm.swap a b bs)
    · exact List.Perm.refl _

/-- The stable sort permutes its input. -/
theorem jsSort_perm (le : α → α → Bool) :
    ∀ l : List α, (jsSort le l).Perm l
  | [] => List.Perm.refl _
  | a :: l => (jsInsert_perm le a (jsSort le l)).trans ((jsSort_perm le l).cons a)

/-- Inserting into a pairwise-`le` list preserves pairwise-`le`, for a
transitive total `le`. -/
theorem jsInsert_pairwise (le : α → α → Bool)
    (htrans : ∀ a b c, le a b = true → le b c = true → le a c = true)
    (htot : ∀ a b, le a b = true ∨ le b a = true) (a : α) :
    ∀ l : List α, l.Pairwise (fun x y => le x y = true) →
      (jsInsert le a l).Pairwise (fun x y => le x y = true)
  | [], _ => by simp [jsInsert]
  | b :: bs, hl => by
    obtain ⟨hb, hbs⟩ := List.pairwise_cons.mp hl
    simp only [jsInsert]
    split
    case isTrue h =>
      refine List.pairwise_cons.mpr ⟨?_, jsInsert_pairwise le htrans htot a bs hbs⟩
      intro x hx
      rcases List.mem_cons.mp ((jsInsert_perm le a bs).mem_iff.mp hx) with rfl | hxbs
      · simp only [Bool.and_eq_true] at h
        exact h.1
      · exact hb x hxbs
    case isFalse h =>
      have hab : le a b = true := by
        rcases htot a b with h1 | h1
        · exact h1
        · by_cases h2 : le a b = true
          · exact h2
          · exact absurd (by simp [h1, h2]) h
      refine List.pairwise_cons.mpr ⟨?_, hl⟩
      intro x hx
      rcases List.mem_cons.mp hx with rfl | hxbs
      · exact hab
      · exact htrans a b x hab (hb x hxbs)

/-- The stable sort produces a pairwise-`le` list, for a transitive
total `le`. -/
theorem jsSort_pairwise (le : α → α → Bool)
    (htrans : ∀ a b c, le a b = true → le b c = true → le a c = true)
    (htot : ∀ a b, le a b = true ∨ le b a = true) :
    ∀ l : List α, (jsSort le l).Pairwise (fun x y => le x y = true)
  | [] => List.Pairwise.nil
  | a :: l => jsInsert_pairwise le htrans htot a _ (jsSort_pairwise le htrans htot l)

/-- `subAt` decides occurrence of the pattern at the head. -/
theorem subAt_iff : ∀ (pat hay : List Char),
    subAt pat hay = true ↔ ∃ post, pat ++ post = hay
  | [], hay => by simp [subAt]
  | c :: cs, [] => by simp [subAt]
  | c :: cs, d :: ds => by
    simp only [subAt, Bool.and_eq_true, beq_iff_eq, subAt_iff cs ds,
      List.cons_append, List.cons.injEq]
    constructor
    · rintro ⟨rfl, post, rfl⟩
      exact ⟨post, rfl, rfl⟩
    · rintro ⟨post, rfl, rfl⟩
      exact ⟨rfl, post, rfl⟩

/-- `hasSub` decides contiguous occurrence of the pattern anywhere. -/
theorem hasSub_iff : ∀ (pat hay : List Char),
    hasSub pat hay = true ↔ ∃ pre post, pre ++ pat ++ post = hay
  | pat, [] => by
    simp only [hasSub, List.isEmpty_iff]
    constructor
    · rintro rfl
      exact ⟨[], [], rfl⟩
    · rintro ⟨pre, post, h⟩
      exact (List.append_eq_nil.mp (List.append_eq_nil.mp h).1).2
  | pat, c :: rest => by
    simp only [hasSub, Bool.or_eq_true, subAt_iff, hasSub_iff pat rest]
    constructor
    · rintro (⟨post, h⟩ | ⟨pre, post, h⟩)
      · exact ⟨[], post, by simpa using h⟩
      · exact ⟨c :: pre, post, by simp [h]⟩
    · rintro ⟨pre, post, h⟩
      cases pre with
      | nil => exact Or.inl ⟨post, by simpa using h⟩
      | cons c₀ pre =>
        simp only [List.cons_append, List.cons.injEq] at h
        exact Or.inr ⟨pre, post, h.2⟩

/-- `strIncludes` is exactly the substring relation of the spec. -/
theorem strIncludes_iff (s pat : String) :
    strIncludes s pat = true ↔ isSubstringOf pat s := by
  simp only [strIncludes, isSubstringOf, hasSub_iff]

/-- When no existing group carries the title, `insertGrouped` appends a
fresh singleton group at the end. -/
theorem insertGrouped_of_not_mem (tx : Transaction) (t : String) :
    ∀ gs : List TransactionGroup, t ∉ gs.map (fun g => g.title) →
      insertGrouped tx t gs = gs ++ [⟨t, tx.date, [tx]⟩]
  | [], _ => rfl
  | g :: gs, h => by
    have hne : ¬ g.title = t := fun he => h (by simp [he])
    simp only [insertGrouped, if_neg hne, List.cons_append, List.cons.injEq, true_and]
    exact insertGrouped_of_not_mem tx t gs (fun hm => h (by simp [hm]))

/-- When some group carries the title, `insertGrouped` appends the
transaction to the first such group and leaves everything else alone. -/
theorem insertGrouped_of_mem (tx : Transaction) (t : String) :
    ∀ gs : List TransactionGroup, t ∈ gs.map (fun g => g.title) →
      ∃ l₁ g l₂, gs = l₁ ++ g :: l₂ ∧ g.title = t ∧ t ∉ l₁.map (fun g => g.title) ∧
        insertGrouped tx t gs =
          l₁ ++ (⟨g.title, g.date, g.transactions ++ [tx]⟩ : TransactionGroup) :: l₂
  | [], h => absurd h (by simp)
  | g :: gs, h => by
    by_cases hg : g.title = t
    · exact ⟨[], g, gs, by simp, hg, by simp, by simp [insertGrouped, if_pos hg]⟩
    · have ht : t ∈ gs.map (fun g => g.title) := by
        rcases List.mem_cons.mp (by simpa only [List.map_cons] using h) with h1 | h1
        · exact absurd h1.symm hg
        · exact h1
      obtain ⟨l₁, g₀, l₂, hgs, hg₀, hnl₁, hins⟩ := insertGrouped_of_mem tx t gs ht
      refine ⟨g :: l₁, g₀, l₂, by simp [hgs], hg₀, ?_, ?_⟩
      · intro hm
        rcases List.mem_cons.mp (by simpa only [List.map_cons] using hm) with h1 | h1
        · exact hg h1.symm
        · exact hnl₁ h1
      · simp only [insertGrouped, if_neg hg, hins, List.cons_append]

/-- A nonempty list keeps its head under appending on the right. -/
theorem head?_append_of_some {l l' : List α} {a : α} (h : l.head? = some a) :
    (l ++ l').head? = some a := by
  cases l with
  | nil => simp at h
  | cons b bs => simpa using h

/-- One step of the grouping loop preserves the grouping invariant. -/
theorem GroupsOK_insert (now : CalDate) (seen : List Transaction)
    (gs : List TransactionGroup) (tx : Transaction) (h : GroupsOK now seen gs) :
    GroupsOK now (seen ++ [tx]) (insertGrouped tx (groupTitle now tx.date) gs) := by
  obtain ⟨hnd, hcov, hfil, hhead⟩ := h
  have hfilne : ∀ (s : String), ¬ s = groupTitle now tx.date →
      (seen ++ [tx]).filter (fun x => groupTitle now x.date == s)
        = seen.filter (fun x => groupTitle now x.date == s) := by
    intro s hs
    rw [List.filter_append]
    have hb : (groupTitle now tx.date == s) = false := by
      rw [beq_eq_false_iff_ne]
      exact fun he => hs he.symm
    simp [hb]
  by_cases hmem : groupTitle now tx.date ∈ gs.map (fun g => g.title)
  · obtain ⟨l₁, g₀, l₂, hgs, hg₀, hnl₁, hins⟩ :=
      insertGrouped_of_mem tx (groupTitle now tx.date) gs hmem
    rw [hins]
    subst hgs
    have hmap : (l₁ ++ (⟨g₀.title, g₀.date, g₀.transactions ++ [tx]⟩ :
          TransactionGroup) :: l₂).map (fun g => g.title)
        = (l₁ ++ g₀ :: l₂).map (fun g => g.title) := by simp
    have hnl₂ : ¬ g₀.title ∈ l₂.map (fun g => g.title) := by
      have h1 := hnd
      simp only [List.map_append, List.map_cons, List.nodup_append] at h1
      exact (List.nodup_cons.mp h1.2.1).1
    have hl₁ne : ∀ g ∈ l₁, ¬ g.title = groupTitle now tx.date := by
      intro g hgmem he
      exact hnl₁ (he ▸ List.mem_map_of_mem (fun g => g.title) hgmem)
    have hl₂ne : ∀ g ∈ l₂, ¬ g.title = groupTitle now tx.date := by
      intro g hgmem he
      apply hnl₂
      rw [hg₀]
      exact he ▸ List.mem_map_of_mem (fun g => g.title) hgmem
    have hfilt : (seen ++ [tx]).filter (fun x => groupTitle now x.date == g₀.title)
        = seen.filter (fun x => groupTitle now x.date == g₀.title) ++ [tx] := by
      rw [List.filter_append]
      have hb : (groupTitle now tx.date == g₀.title) = true := by
        rw [beq_iff_eq]
        exact hg₀.symm
      simp [hb]
    refine ⟨?_, ?_, ?_, ?_⟩
    · rw [hmap]
      exact hnd
    · intro x hx
      rw [hmap]
      rcases List.mem_append.mp hx with h1 | h1
      · exact hcov x h1
      · have hx2 := List.mem_singleton.mp h1
        subst hx2
        exact hmem
    · intro g hg
      rcases List.mem_append.mp hg with h1 | h1
      · rw [hfilne g.title (hl₁ne g h1)]
        exact hfil g (List.mem_append_left _ h1)
      · rcases List.mem_cons.mp h1 with rfl | h2
        · show g₀.transactions ++ [tx]
            = (seen ++ [tx]).filter (fun x => groupTitle now x.date == g₀.title)
          rw [hfilt, hfil g₀ (List.mem_append_right _ (List.mem_cons_self _ _))]
        · rw [hfilne g.title (hl₂ne g h2)]
          exact hfil g (List.mem_append_right _ (List.mem_cons_of_mem _ h2))
    · intro g hg
      rcases List.mem_append.mp hg with h1 | h1
      · exact hhead g (List.mem_append_left _ h1)
      · rcases List.mem_cons.mp h1 with rfl | h2
        · obtain ⟨x, hx1, hx2⟩ :=
            hhead g₀ (List.mem_append_right _ (List.mem_cons_self _ _))
          exact ⟨x, head?_append_of_some hx1, hx2⟩
        · exact hhead g (List.mem_append_right _ (List.mem_cons_of_mem _ h2))
  · rw [insertGrouped_of_not_mem tx (groupTitle now tx.date) gs hmem]
    have hseen : seen.filter
        (fun x => groupTitle now x.date == groupTitle now tx.date) = [] := by
      rw [List.filter_eq_nil_iff]
      intro x hx hbeq
      exact hmem (beq_iff_eq.mp hbeq ▸ hcov x hx)
    refine ⟨?_, ?_, ?_, ?_⟩
    · simp only [List.map_append, List.map_cons, List.map_nil]
      rw [List.nodup_append]
      refine ⟨hnd, List.nodup_singleton _, ?_⟩
      intro a ha hb
      have hb2 := List.mem_singleton.mp hb
      subst hb2
      exact hmem ha
    · intro x hx
      simp only [List.map_append, List.map_cons, List.map_nil]
      rcases List.mem_append.mp hx with h1 | h1
      · exact List.mem_append_left _ (hcov x h1)
      · have hx2 := List.mem_singleton.mp h1
        subst hx2
        exact List.mem_append_right _ (List.mem_singleton.mpr rfl)
    · intro g hg
      rcases List.mem_append.mp hg with h1 | h1
      · have hgne : ¬ g.title = groupTitle now tx.date := by
          intro he
          exact hmem (he ▸ List.mem_map_of_mem (fun g => g.title) h1)
        rw [hfilne g.title hgne]
        exact hfil g h1
      · have hg2 := List.mem_singleton.mp h1
        subst hg2
        show [tx] = (seen ++ [tx]).filter
          (fun x => groupTitle now x.date == groupTitle now tx.date)
        rw [List.filter_append, hseen]
        simp
    · intro g hg
      rcases List.mem_append.mp hg with h1 | h1
      · exact hhead g h1
      · have hg2 := List.mem_singleton.mp h1
        subst hg2
        exact ⟨tx, rfl, rfl⟩

/-- Folding a transaction list into the accumulator preserves the
grouping invariant. -/
theorem GroupsOK_foldl (now : CalDate) :
    ∀ (txs seen : List Transaction) (gs : List TransactionGroup),
      GroupsOK now seen gs →
      GroupsOK now (seen ++ txs)
        (txs.foldl (fun gs tx => insertGrouped tx (groupTitle now tx.date) gs) gs)
  | [], seen, gs, h => by simpa using h
  | tx :: txs, seen, gs, h => by
    have h2 := GroupsOK_foldl now txs (seen ++ [tx]) _ (GroupsOK_insert now seen gs tx h)
    simpa [List.append_assoc] using h2

/-- The grouping loop establishes the invariant over the whole page. -/
theorem GroupsOK_buildGroups (now : CalDate) (txs : List Transaction) :
    GroupsOK now txs (buildGroups now txs) := by
  have h0 : GroupsOK now [] [] := ⟨List.nodup_nil, by simp, by simp, by simp⟩
  simpa [buildGroups] using GroupsOK_foldl now txs [] [] h0

/-- Flattening an empty group list is empty. -/
theorem flattenGroups_nil : flattenGroups ([] : List TransactionGroup) = [] := rfl

/-- Flattening distributes over cons. -/
theorem flattenGroups_cons (g : TransactionGroup) (gs : List TransactionGroup) :
    flattenGroups (g :: gs) = g.transactions ++ flattenGroups gs := by
  simp [flattenGroups]

/-- Inserting a transaction adds exactly that transaction to the
flattened contents, up to permutation. -/
theorem flattenGroups_insertGrouped (tx : Transaction) (t : String) :
    ∀ gs : List TransactionGroup,
      (flattenGroups (insertGrouped tx t gs)).Perm (tx :: flattenGroups gs)
  | [] => by simp [insertGrouped, flattenGroups]
  | g :: gs => by
    simp only [insertGrouped]
    split
    · rw [flattenGroups_cons, flattenGroups_cons]
      have he : ((⟨g.title, g.date, g.transactions ++ [tx]⟩ :
            TransactionGroup).transactions) ++ flattenGroups gs
          = g.transactions ++ tx :: flattenGroups gs := by simp
      rw [he]
      exact List.perm_middle
    · rw [flattenGroups_cons, flattenGroups_cons]
      exact (List.Perm.append_left g.transactions
        (flattenGroups_insertGrouped tx t gs)).trans List.perm_middle

/-- The flattened contents of the grouping fold are the folded
transactions appended to the initial contents, up to permutation. -/
theorem flattenGroups_foldl (now : CalDate) :
    ∀ (txs : List Transaction) (gs : List TransactionGroup),
      (flattenGroups
        (txs.foldl (fun gs tx => insertGrouped tx (groupTitle now tx.date) gs) gs)).Perm
        (flattenGroups gs ++ txs)
  | [], gs => by simp
  | tx :: txs, gs => by
    have h1 := flattenGroups_foldl now txs (insertGrouped tx (groupTitle now tx.date) gs)
    have h2 := (flattenGroups_insertGrouped tx (groupTitle now tx.date) gs).append_right txs
    exact (h1.trans h2).trans List.perm_middle.symm

/-- The groups built from a page contain exactly the page, up to
permutation. -/
theorem flattenGroups_buildGroups (now : CalDate) (txs : List Transaction) :
    (flattenGroups (buildGroups now txs)).Perm txs := by
  simpa [buildGroups] using flattenGroups_foldl now txs []

/-- Permuting the groups permutes the flattened contents. -/
theorem flattenGroups_perm {gs₁ gs₂ : List TransactionGroup} (h : gs₁.Perm gs₂) :
    (flattenGroups gs₁).Perm (flattenGroups gs₂) := by
  unfold flattenGroups
  exact (h.map (fun g => g.transactions)).flatten

/-- After the newest-first group sort, the flattened contents are still
the page, up to permutation. -/
theorem flattenGroups_sortedGroups (now : CalDate) (txs : List Transaction) :
    (flattenGroups (sortedGroups now txs)).Perm txs :=
  (flattenGroups_perm (jsSort_perm groupLe (buildGroups now txs))).trans
    (flattenGroups_buildGroups now txs)

/-- The rendered content of `paginatedData` is the page slice of the
processed list, up to permutation. -/
theorem flatten_paginated (processed : List Transaction) (p : Nat) (now : CalDate) :
    (flattenGroups (paginatedData processed p now).groups).Perm
      ((processed.drop ((p - 1) * itemsPerPage)).take itemsPerPage) := by
  by_cases h : processed.isEmpty = true
  · have he : processed = [] := List.isEmpty_iff.mp h
    subst he
    simp [paginatedData, flattenGroups]
  · simp only [paginatedData, if_neg h]
    exact flattenGroups_sortedGroups now _

/-- `groupLe` is transitive. -/
theorem groupLe_trans (a b c : TransactionGroup)
    (h1 : groupLe a b = true) (h2 : groupLe b c = true) : groupLe a c = true := by
  simp only [groupLe, decide_eq_true_eq] at h1 h2 ⊢
  exact le_trans h2 h1

/-- `groupLe` is total. -/
theorem groupLe_total (a b : TransactionGroup) :
    groupLe a b = true ∨ groupLe b a = true := by
  simp only [groupLe, decide_eq_true_eq]
  exact le_total _ _

/-- The sequential early-return filter callback equals the spec's
conjunction of independent predicates (with `'custom'` passing). -/
theorem txMatches_iff (filters : Filters) (now : CalDate) (tx : Transaction) :
    txMatches filters now tx = true ↔ filterSpec filters now tx := by
  have hdate : dateRangeOk filters now tx = true ↔
      (filters.dateRange = DateRangeOption.all ∨
       (filters.dateRange = DateRangeOption.today ∧ isToday tx.date now = true) ∨
       (filters.dateRange = DateRangeOption.week ∧ isSameWeek tx.date now 0 = true) ∨
       (filters.dateRange = DateRangeOption.month ∧ isSameMonth tx.date now = true) ∨
       filters.dateRange = DateRangeOption.custom) := by
    cases hdr : filters.dateRange <;> simp [dateRangeOk, hdr]
  unfold txMatches filterSpec
  split_ifs with h1 h2 h3 h4
  · simp only [Bool.and_eq_true, bne_iff_ne, ne_eq] at h1
    simp only [Bool.false_eq_true, false_iff]
    rintro ⟨hc, -, -, -⟩
    rcases hc with he | he
    · exact h1.1 he
    · exact h1.2 he
  · simp only [Bool.and_eq_true, bne_iff_ne, ne_eq] at h2
    simp only [Bool.false_eq_true, false_iff]
    rintro ⟨-, hc, -, -⟩
    rcases hc with he | he
    · exact h2.1 he
    · exact h2.2 he
  · simp only [bne_iff_ne, ne_eq] at h3
    simp only [Bool.and_eq_true, Bool.not_eq_true'] at h4
    simp only [Bool.false_eq_true, false_iff]
    rintro ⟨-, -, hs, -⟩
    rcases hs with he | hsub | ⟨d, hd, hsub⟩
    · exact h3 he
    · have hc := (strIncludes_iff tx.category.toLower filters.searchTerm.toLower).mpr hsub
      rw [h4.1] at hc
      exact absurd hc (by decide)
    · simp only [hd] at h4
      have hc := (strIncludes_iff d.toLower filters.searchTerm.toLower).mpr hsub
      rw [h4.2] at hc
      exact absurd hc (by decide)
  · simp only [Bool.and_eq_true, bne_iff_ne, ne_eq, not_and_or, not_not] at h1 h2
    simp only [bne_iff_ne, ne_eq] at h3
    simp only [Bool.and_eq_true, Bool.not_eq_true', not_and_or, Bool.not_eq_false] at h4
    constructor
    · intro hdr
      refine ⟨h1, h2, ?_, hdate.mp hdr⟩
      rcases h4 with hc | hdm
      · exact Or.inr (Or.inl ((strIncludes_iff _ _).mp hc))
      · cases hdesc : tx.description with
        | none =>
          simp only [hdesc] at hdm
          exact absurd hdm (by decide)
        | some d =>
          simp only [hdesc] at hdm
          exact Or.inr (Or.inr ⟨d, rfl, (strIncludes_iff _ _).mp hdm⟩)
    · rintro ⟨-, -, -, hc4⟩
      exact hdate.mpr hc4
  · simp only [Bool.and_eq_true, bne_iff_ne, ne_eq, not_and_or, not_not] at h1 h2
    simp only [bne_iff_ne, ne_eq, not_not] at h3
    constructor
    · intro hdr
      exact ⟨h1, h2, Or.inl h3, hdate.mp hdr⟩
    · rintro ⟨-, -, -, hc4⟩
      exact hdate.mpr hc4

/-- Membership in the processed list is membership in the input plus
the filter callback. -/
theorem mem_processed_iff (txs : List Transaction) (fs : Filters) (now : CalDate)
    (tx : Transaction) :
    tx ∈ processedTransactions txs fs now ↔ tx ∈ txs ∧ txMatches fs now tx = true := by
  unfold processedTransactions
  split_ifs with h
  · have he : txs = [] := List.isEmpty_iff.mp h
    subst he
    simp
  · unfold sortTransactions
    rw [(jsSort_perm _ _).mem_iff, List.mem_filter]

/-- The code's quote-doubling `replace` equals the spec's per-character
flat map. -/
theorem replaceDq_eq_flatMap : ∀ l : List Char,
    replaceDq l = l.flatMap (fun c => if c = '"' then ['"', '"'] else [c])
  | [] => rfl
  | c :: cs => by
    simp only [replaceDq, List.flatMap_cons, replaceDq_eq_flatMap cs]
    split_ifs <;> simp

/-- The quoted-field builder in terms of the spec's escaping. -/
theorem escapeField_eq (s : String) :
    escapeField s = "\"" ++ quoteDoubled s ++ "\"" := by
  simp only [escapeField, quoteDoubled, replaceDq_eq_flatMap]

/-- The summary fold accumulates the income and non-income amount sums. -/
theorem summary_foldl : ∀ (txs : List Transaction) (a b : Int),
    txs.foldl (fun (p : Int × Int) tx =>
        if tx.type = "income" then (p.1 + tx.amount, p.2)
        else (p.1, p.2 + tx.amount)) (a, b)
      = (a + ((txs.filter (fun tx => tx.type == "income")).map
            (fun tx => tx.amount)).sum,
         b + ((txs.filter (fun tx => tx.type != "income")).map
            (fun tx => tx.amount)).sum)
  | [], a, b => by simp
  | tx :: txs, a, b => by
    by_cases h : tx.type = "income"
    · have ih := summary_foldl txs (a + tx.amount) b
      simp only [List.foldl_cons, if_pos h, ih]
      have hb1 : (tx.type == "income") = true := by simp [h]
      have hb2 : (tx.type != "income") = false := by simp [h]
      simp [List.filter_cons, hb1, hb2, add_assoc]
    · have ih := summary_foldl txs a (b + tx.amount)
      simp only [List.foldl_cons, if_neg h, ih]
      have hb1 : (tx.type == "income") = false := by simp [h]
      have hb2 : (tx.type != "income") = true := by simp [h]
      simp [List.filter_cons, hb1, hb2, add_assoc]

/-- Every per-option comparator order is transitive. -/
theorem sortLe_trans (so : SortOption) (a b c : Transaction)
    (h1 : sortLe so a b = true) (h2 : sortLe so b c = true) :
    sortLe so a c = true := by
  cases so <;> simp only [sortLe, decide_eq_true_eq] at h1 h2 ⊢ <;> omega

/-- Every per-option comparator order is total. -/
theorem sortLe_total (so : SortOption) (a b : Transaction) :
    sortLe so a b = true ∨ sortLe so b a = true := by
  cases so <;> simp only [sortLe, decide_eq_true_eq] <;> omega

/-- C4: the sort stage returns a permutation of its input, and the
output is ordered non-increasing by date under `newest`, non-decreasing
by date under `oldest`, non-increasing by amount under `highest`, and
non-decreasing by amount under `lowest`. -/
theorem sort_perm_and_ordered (txs : List Transaction) :
    (∀ so, (sortTransactions so txs).Perm txs) ∧
    (sortTransactions SortOption.newest txs).Pairwise
      (fun a b => getTime b.date ≤ getTime a.date) ∧
    (sortTransactions SortOption.oldest txs).Pairwise
      (fun a b => getTime a.date ≤ getTime b.date) ∧
    (sortTransactions SortOption.highest txs).Pairwise
      (fun a b => b.amount ≤ a.amount) ∧
    (sortTransactions SortOption.lowest txs).Pairwise
      (fun a b => a.amount ≤ b.amount) := by
  have hpw : ∀ so, (sortTransactions so txs).Pairwise
      (fun a b => sortLe so a b = true) := fun so =>
    jsSort_pairwise (sortLe so) (sortLe_trans so) (sortLe_total so) txs
  refine ⟨fun so => jsSort_perm (sortLe so) txs, ?_, ?_, ?_, ?_⟩
  · exact (hpw SortOption.newest).imp (fun h => by simpa [sortLe] using h)
  · exact (hpw SortOption.oldest).imp (fun h => by simpa [sortLe] using h)
  · exact (hpw SortOption.highest).imp (fun h => by simpa [sortLe] using h)
  · exact (hpw SortOption.lowest).imp (fun h => by simpa [sortLe] using h)

/-- C8: `totalIncome` sums the amounts of the `'income'` transactions,
`totalExpense` sums the amounts of every other transaction (any type
other than `'income'`), and `balance` is their difference. -/
theorem summary_income_expense_balance (txs : List Transaction) :
    (summary txs).totalIncome
      = ((txs.filter (fun tx => tx.type == "income")).map (fun tx => tx.amount)).sum ∧
    (summary txs).totalExpense
      = ((txs.filter (fun tx => tx.type != "income")).map (fun tx => tx.amount)).sum ∧
    (summary txs).balance = (summary txs).totalIncome - (summary txs).totalExpense := by
  refine ⟨?_, ?_, rfl⟩
  · show (txs.foldl (fun (p : Int × Int) tx =>
        if tx.type = "income" then (p.1 + tx.amount, p.2)
        else (p.1, p.2 + tx.amount)) (0, 0)).1 = _
    rw [summary_foldl txs 0 0]
    simp
  · show (txs.foldl (fun (p : Int × Int) tx =>
        if tx.type = "income" then (p.1 + tx.amount, p.2)
        else (p.1, p.2 + tx.amount)) (0, 0)).2 = _
    rw [summary_foldl txs 0 0]
    simp

set_option maxRecDepth 20000 in
/-- C2 counterexample: with eleven matching transactions, the exported
CSV carries one data row per processed transaction (eleven rows), not
one per row visible on the current page (ten rows), so the CSV is not
the visible rows. -/
theorem exportCSV_not_visible_rows :
    exportCSV (processedTransactions txs11 fsDefault now0)
      ≠ ExportResult.csv (csvHeader ++ String.intercalate "\n"
          ((visibleRows txs11 fsDefault 1 now0).map csvRow)) := by
  decide

/-- C2 (amended): with a non-empty processed list, exporting yields the
header plus one data row per processed transaction in processed-list
order — the whole filtered-and-sorted list, not only the page on
display; with an empty processed list an error message results and no
CSV is produced. -/
theorem exportCSV_rows_are_processed (processed : List Transaction) :
    (processed = [] → exportCSV processed = ExportResult.err "ไม่มีข้อมูลที่จะส่งออก") ∧
    (processed ≠ [] → exportCSV processed
      = ExportResult.csv (csvHeader ++ String.intercalate "\n" (processed.map csvRow))) := by
  constructor
  · rintro rfl
    rfl
  · intro h
    unfold exportCSV
    rw [if_neg (by simpa using h)]

/-- Witness for the amended C2 at a one-element processed list. -/
theorem exportCSV_rows_are_processed_witness :
    exportCSV [txA] = ExportResult.csv (csvHeader ++ String.intercalate "\n" ([txA].map csvRow)) :=
  (exportCSV_rows_are_processed [txA]).2 (by decide)

/-- C7 counterexample: on an execution where creating the Supabase
client throws, the handler issues no query at all, so it does not issue
exactly one query on every request. -/
theorem categoriesGET_zero_queries_on_client_error :
    (categoriesGET ⟨[], none, ""⟩ DbOutcome.clientError).fst.length ≠ 1 := by
  decide

/-- C7 (amended): the handler ignores the request entirely — no
authentication, authorisation or input validation — issues at most one
query, exactly the `categories` select-all ordered by `name` whenever
the client is created, and on success returns the rows unchanged with
status 200, `null` data becoming the empty list. -/
theorem categoriesGET_passthrough (r₁ r₂ : HttpRequest) (db : DbOutcome) :
    categoriesGET r₁ db = categoriesGET r₂ db ∧
    (categoriesGET r₁ db).fst.length ≤ 1 ∧
    (db ≠ DbOutcome.clientError → (categoriesGET r₁ db).fst = [categoriesQuery]) ∧
    (∀ rows, (categoriesGET r₁ (DbOutcome.ok (some rows))).snd
      = ⟨200, ResponseBody.rows rows⟩) ∧
    (categoriesGET r₁ (DbOutcome.ok none)).snd = ⟨200, ResponseBody.rows []⟩ := by
  refine ⟨rfl, ?_, ?_, fun rows => rfl, rfl⟩
  · cases db <;> simp [categoriesGET]
  · intro h
    cases db with
    | clientError => exact absurd rfl h
    | queryThrow => rfl
    | queryError => rfl
    | ok data => rfl

/-- Witness for the amended C7: a successful execution issues exactly
the one categories query. -/
theorem categoriesGET_passthrough_witness :
    (categoriesGET ⟨[], none, ""⟩ (DbOutcome.ok none)).fst = [categoriesQuery] :=
  (categoriesGET_passthrough ⟨[], none, ""⟩ ⟨[], none, ""⟩ (DbOutcome.ok none)).2.2.1
    (by decide)

/-- C10: the handler returns status 500 with the fixed JSON error body
exactly on the failing executions — client creation throws, the awaited
query throws, or the query result carries an error — and returns a
normal response on every execution, never propagating an exception (it
is a total function of the outcome). -/
theorem categoriesGET_error_atomicity (r : HttpRequest) (db : DbOutcome) :
    ((categoriesGET r db).snd.status = 500 ↔
      (db = DbOutcome.clientError ∨ db = DbOutcome.queryThrow ∨
        db = DbOutcome.queryError)) ∧
    ((db = DbOutcome.clientError ∨ db = DbOutcome.queryThrow ∨
        db = DbOutcome.queryError) →
      (categoriesGET r db).snd
        = ⟨500, ResponseBody.errorObj "Failed to fetch categories"⟩) := by
  cases db <;> simp [categoriesGET]

/-- Witness for C10: a query error yields the 500 response with the
fixed body. -/
theorem categoriesGET_error_atomicity_witness :
    (categoriesGET ⟨[], none, ""⟩ DbOutcome.queryError).snd
      = ⟨500, ResponseBody.errorObj "Failed to fetch categories"⟩ :=
  (categoriesGET_error_atomicity ⟨[], none, ""⟩ DbOutcome.queryError).2 (by decide)

/-- C9: each exported data row is `date,type,category,description,amount`
with the category and description fields enclosed in double quotes and
every embedded quote doubled, a missing description emitted as the
empty quoted field, the Thai type label `รายรับ` exactly for `'income'`
and `รายจ่าย` otherwise, date and amount unquoted, and the whole output
the fixed header line followed by the rows joined by newlines. -/
theorem exportCSV_row_format (processed : List Transaction) (h : processed ≠ []) :
    exportCSV processed = ExportResult.csv
      ("วันที่,ประเภท,หมวดหมู่,รายละเอียด,จำนวนเงิน\n" ++ String.intercalate "\n"
        (processed.map (fun tx =>
          formatYMD tx.date ++ "," ++
          (if tx.type = "income" then "รายรับ" else "รายจ่าย") ++ "," ++
          ("\"" ++ quoteDoubled tx.category ++ "\"") ++ "," ++
          ("\"" ++ (match tx.description with
                    | none => ""
                    | some d => quoteDoubled d) ++ "\"") ++ "," ++
          toString tx.amount))) := by
  have hrow : ∀ tx : Transaction, csvRow tx =
      formatYMD tx.date ++ "," ++
      (if tx.type = "income" then "รายรับ" else "รายจ่าย") ++ "," ++
      ("\"" ++ quoteDoubled tx.category ++ "\"") ++ "," ++
      ("\"" ++ (match tx.description with
                | none => ""
                | some d => quoteDoubled d) ++ "\"") ++ "," ++
      toString tx.amount := by
    intro tx
    unfold csvRow
    rw [escapeField_eq, escapeField_eq]
    cases hd : tx.description with
    | none => simp [hd, quoteDoubled]
    | some d => simp [hd]
  unfold exportCSV
  rw [if_neg (by simpa using h)]
  have hmap : processed.map csvRow = processed.map (fun tx =>
      formatYMD tx.date ++ "," ++
      (if tx.type = "income" then "รายรับ" else "รายจ่าย") ++ "," ++
      ("\"" ++ quoteDoubled tx.category ++ "\"") ++ "," ++
      ("\"" ++ (match tx.description with
                | none => ""
                | some d => quoteDoubled d) ++ "\"") ++ "," ++
      toString tx.amount) := by
    exact List.map_congr_left (fun tx _ => hrow tx)
  rw [hmap]
  rfl

/-- Witness for C9 at a concrete one-element processed list, with the
CSV content fully evaluated. -/
theorem exportCSV_row_format_witness :
    exportCSV [txB] = ExportResult.csv
      "วันที่,ประเภท,หมวดหมู่,รายละเอียด,จำนวนเงิน\n2020-02-01,รายรับ,\"a\",\"\",3" :=
  (exportCSV_row_format [txB] (by decide)).trans (by decide)

/-- C3 counterexample: with the `'custom'` date range — a value of the
component's `DateRangeOption` state — a transaction outside every
relative range is kept, although the claim's date-range condition
(range is `'all'`, or the date falls in the `'today'`/`'week'`/`'month'`
range) fails for it, so the claimed conjunction does not hold as
stated. -/
theorem filter_custom_counterexample :
    txC ∈ processedTransactions [txC] fsCustom now0 ∧
    ¬ (fsCustom.dateRange = DateRangeOption.all ∨
       (fsCustom.dateRange = DateRangeOption.today ∧ isToday txC.date now0 = true) ∨
       (fsCustom.dateRange = DateRangeOption.week ∧ isSameWeek txC.date now0 0 = true) ∨
       (fsCustom.dateRange = DateRangeOption.month ∧ isSameMonth txC.date now0 = true)) := by
  decide

/-- C3 (amended): a transaction is in the processed list exactly when it
is in the input and satisfies the conjunction of the independent type,
category, search-substring and date-range predicates, where the
unhandled `'custom'` date range excludes nothing. -/
theorem filter_is_conjunction (txs : List Transaction) (fs : Filters)
    (now : CalDate) (tx : Transaction) :
    tx ∈ processedTransactions txs fs now ↔ tx ∈ txs ∧ filterSpec fs now tx := by
  rw [mem_processed_iff, txMatches_iff]

/-- C1 (amended): the displayed data is computed as filter, then sort,
then the ten-item page slice, then grouping; grouping never drops items
from the page slice — its flattened output is a permutation of the
slice — but it may reorder them across buckets, because buckets are
emitted newest-first. -/
theorem pipeline_filter_sort_paginate_group (txs : List Transaction) (fs : Filters)
    (p : Nat) (now : CalDate) :
    processedTransactions txs fs now
      = sortTransactions fs.sortOption (txs.filter (txMatches fs now)) ∧
    (flattenGroups (paginatedData (processedTransactions txs fs now) p now).groups).Perm
      (((processedTransactions txs fs now).drop ((p - 1) * itemsPerPage)).take
        itemsPerPage) := by
  constructor
  · unfold processedTransactions
    split_ifs with h
    · have he : txs = [] := List.isEmpty_iff.mp h
      subst he
      rfl
    · rfl
  · exact flatten_paginated _ p now

/-- C1 counterexample: with the oldest-first sort and two transactions
in different past months, the grouped first page lists the February
bucket before the January one, so grouping reorders the page slice. -/
theorem grouping_reorders_page_slice :
    ¬ (flattenGroups
        (paginatedData (processedTransactions [txA, txB] fsOldest now0) 1 now0).groups
      = (((processedTransactions [txA, txB] fsOldest now0).drop
          ((1 - 1) * itemsPerPage)).take itemsPerPage)) := by
  decide

/-- C5: pagination slices the processed list into pages of at most ten
items: page `p` holds, as a permutation, exactly the slice of the
processed list from index `(p-1)*10` up to `min(p*10, n) - 1` (the
slice is characterised index by index), `totalPages` is the ceiling of
`n / 10` (the least page count covering `n`), `totalItems` is `n`, and
an empty processed list yields no groups and zero totals. -/
theorem pagination_slices (processed : List Transaction) (p : Nat) (now : CalDate)
    (hp : 1 ≤ p) :
    (processed = [] → paginatedData processed p now = ⟨[], 0, 0⟩) ∧
    (processed ≠ [] →
      (flattenGroups (paginatedData processed p now).groups).Perm
        ((processed.drop ((p - 1) * itemsPerPage)).take itemsPerPage) ∧
      (∀ i : Nat, ((processed.drop ((p - 1) * itemsPerPage)).take itemsPerPage)[i]?
        = if (p - 1) * itemsPerPage + i < min (p * itemsPerPage) processed.length
          then processed[(p - 1) * itemsPerPage + i]? else none) ∧
      (paginatedData processed p now).totalPages
        = (processed.length + itemsPerPage - 1) / itemsPerPage ∧
      processed.length ≤ (paginatedData processed p now).totalPages * itemsPerPage ∧
      ((paginatedData processed p now).totalPages - 1) * itemsPerPage
        < processed.length ∧
      (paginatedData processed p now).totalItems = processed.length) := by
  constructor
  · rintro rfl
    rfl
  · intro h
    have hne : ¬ processed.isEmpty = true := by simpa using h
    have hlen1 : 1 ≤ processed.length := List.length_pos.mpr h
    have htp : (paginatedData processed p now).totalPages
        = (processed.length + itemsPerPage - 1) / itemsPerPage := by
      simp [paginatedData, hne]
    have hti : (paginatedData processed p now).totalItems = processed.length := by
      simp [paginatedData, hne]
    refine ⟨flatten_paginated processed p now, ?_, htp, ?_, ?_, hti⟩
    · intro i
      simp only [itemsPerPage]
      rw [List.getElem?_take, List.getElem?_drop]
      by_cases hi : i < 10
      · rw [if_pos hi]
        by_cases hlen : (p - 1) * 10 + i < processed.length
        · rw [if_pos (by omega)]
        · rw [if_neg (by omega), List.getElem?_eq_none (by omega)]
      · rw [if_neg hi, if_neg (by omega)]
    · rw [htp]
      simp only [itemsPerPage]
      omega
    · rw [htp]
      simp only [itemsPerPage]
      omega

/-- Witness for C5: the empty case and the totals at concrete inputs. -/
theorem pagination_slices_witness :
    paginatedData [] 1 now0 = ⟨[], 0, 0⟩ ∧
    (paginatedData [txA] 1 now0).totalItems = 1 :=
  ⟨(pagination_slices [] 1 now0 (by decide)).1 rfl,
   ((pagination_slices [txA] 1 now0 (by decide)).2 (by decide)).2.2.2.2.2⟩

/-- C6: the date-bucketing of a page is a partition of it: bucket titles
are distinct; every page transaction's title — chosen by the first
matching test among today, yesterday, this week, this month, month-year
— has a bucket; each bucket holds exactly the page transactions bearing
its title, in page order; the flattened buckets are the page up to
permutation; buckets are ordered newest-first by representative date;
and each bucket's representative date is its first transaction's
date. -/
theorem grouping_partitions_page (now : CalDate) (page : List Transaction) :
    ((sortedGroups now page).map (fun g => g.title)).Nodup ∧
    (∀ tx ∈ page,
      groupTitle now tx.date ∈ (sortedGroups now page).map (fun g => g.title)) ∧
    (∀ g ∈ sortedGroups now page,
      g.transactions = page.filter (fun tx => groupTitle now tx.date == g.title)) ∧
    (flattenGroups (sortedGroups now page)).Perm page ∧
    (sortedGroups now page).Pairwise (fun a b => getTime b.date ≤ getTime a.date) ∧
    (∀ g ∈ sortedGroups now page,
      ∃ tx, g.transactions.head? = some tx ∧ g.date = tx.date) := by
  obtain ⟨hnd, hcov, hfil, hhead⟩ := GroupsOK_buildGroups now page
  have hperm : (sortedGroups now page).Perm (buildGroups now page) :=
    jsSort_perm groupLe (buildGroups now page)
  refine ⟨?_, ?_, ?_, flattenGroups_sortedGroups now page, ?_, ?_⟩
  · exact (hperm.map (fun g => g.title)).nodup_iff.mpr hnd
  · intro tx htx
    exact (hperm.map (fun g => g.title)).mem_iff.mpr (hcov tx htx)
  · intro g hg
    exact hfil g (hperm.mem_iff.mp hg)
  · have hpw := jsSort_pairwise groupLe groupLe_trans groupLe_total (buildGroups now page)
    exact hpw.imp (fun h => by simpa [groupLe] using h)
  · intro g hg
    exact hhead g (hperm.mem_iff.mp hg)

/-- Witness for C6 at a concrete two-transaction page. -/
theorem grouping_partitions_page_witness :
    (flattenGroups (sortedGroups now0 [txA, txB])).Perm [txA, txB] :=
  (grouping_partitions_page now0 [txA, txB]).2.2.2.1
